import Mathlib

/-!
Shallow embedding of the Snapshot & Breakout Engine implemented in `src/app.py`
(a Streamlit app scanning the top-100 US stocks for 20-day high/low breakouts).

Modelling conventions:
* Prices are exact rationals (`ℚ`).  The source calls `data.round(2)` once on
  the whole fetched frame before any field is read; since every theorem below
  quantifies over the behaviour of the market-data provider, rounded data is a
  special case of the quantified `fetch`, so the rounding step is absorbed into
  the provider and not re-modelled.
* Dates are naturals (`Nat`); only equality/comparison of dates matters.
* The market-data provider (`yf.download` plus the surrounding `try`) is an
  argument `fetch : String → Option (List Bar)`: `none` models the call raising
  an exception (caught by the handler's `except`, which skips the symbol),
  `some bars` a successful download of an ascending bar series.
* Python exceptions raised *inside* a `try` body (e.g. `IndexError` from
  `iloc[-1]` on an empty frame or from `names[idx]` out of range) make the
  handler skip the symbol; they are modelled by the corresponding `Option`
  guard returning `none` / skipping, which is observationally the same.
* `st.session_state` is the record `AppState`; each button handler becomes a
  function from its external inputs and the state to a result and a new state.
  The refresh timestamps are presentation-only strings and carry no invariant,
  so `AppState` keeps the three stateful collections the handlers read/write:
  `symbols`, `names` (the directory lists) and `df` (the snapshot).
-/

/-- One daily OHLC bar as consumed from the market-data provider
(`data.index` date, `High`, `Low`, `Close` columns of `yf.download`). -/
structure Bar where
  date : Nat
  high : ℚ
  low : ℚ
  close : ℚ
deriving DecidableEq

/-- One row of the snapshot DataFrame built by `analyze`
(columns `Ticker`, `Name`, `Current Price`, `20D High`, `20D Low`).
`currentPrice` is optional because Quick Refresh can write `NaN` into the
`Current Price` column; `analyze` itself always writes a real price. -/
structure TickerRecord where
  symbol : String
  name : String
  currentPrice : Option ℚ
  high20 : ℚ
  low20 : ℚ
deriving DecidableEq

/-- The Streamlit session state the handlers read and write:
`st.session_state.symbols`, `st.session_state.names`, `st.session_state.df`. -/
structure AppState where
  symbols : List String
  names : List String
  df : List TickerRecord
deriving DecidableEq

/-- Vendor symbol normalization `ticker.replace(".", "-")` (app.py:48, 151).
Replacing a single-character pattern by a single-character replacement is
exactly per-character substitution. -/
def normalizeSymbol (s : String) : String :=
  ⟨s.data.map (fun c => if c = '.' then '-' else c)⟩

/-- Lines 55–60 of `analyze`: read the last bar's date and drop the last bar
when it equals the caller's current date (`data = data.iloc[:-1]`). -/
def trimToday (today : Nat) (bars : List Bar) : List Bar :=
  match bars.getLast? with
  | some b => if b.date = today then bars.dropLast else bars
  | none => bars

/-- Maximum of the `High` column, `float(data["High"].max())` (app.py:62); the source only
evaluates it on data it then indexes non-emptily, so the `[]` value is inert. -/
def maxHigh : List Bar → ℚ
  | [] => 0
  | b :: bs => bs.foldl (fun acc c => max acc c.high) b.high

/-- Minimum of the `Low` column, `float(data["Low"].min())` (app.py:63). -/
def minLow : List Bar → ℚ
  | [] => 0
  | b :: bs => bs.foldl (fun acc c => min acc c.low) b.low

/-- One iteration of the `analyze` loop body (app.py:46–71) for index `idx` and
ticker `ticker`: `none` means the symbol is skipped (failed download, empty
frame, or an exception inside the `try`), `some r` the appended row. -/
def analyzeSym (fetch : String → Option (List Bar)) (today : Nat)
    (names : List String) (idx : Nat) (ticker : String) : Option TickerRecord :=
  match fetch (normalizeSymbol ticker) with
  | none => none
  | some data =>
    if data.isEmpty then none
    else
      let w := trimToday today data
      match w.getLast?, names[idx]? with
      | some lastBar, some nm =>
          some { symbol := ticker, name := nm,
                 currentPrice := some lastBar.close,
                 high20 := maxHigh w, low20 := minLow w }
      | _, _ => none

/-- The `for idx, ticker in enumerate(symbols)` loop of `analyze`, appending
successful rows in loop order. -/
def analyzeLoop (fetch : String → Option (List Bar)) (today : Nat)
    (names : List String) : Nat → List String → List TickerRecord
  | _, [] => []
  | i, t :: ts =>
      (analyzeSym fetch today names i t).toList ++
        analyzeLoop fetch today names (i + 1) ts

/-- Function `analyze(symbols, names)` (app.py:42–74): the resulting snapshot rows.
The `latest_date` bookkeeping (app.py:67–68) feeds only the status line and is
not part of the snapshot. -/
def analyze (fetch : String → Option (List Bar)) (today : Nat)
    (symbols names : List String) : List TickerRecord :=
  analyzeLoop fetch today names 0 symbols

/-- One scraped directory row as far as `scrape_symbols` reads it: the text of
`div.company-name` and `div.company-code` when present (app.py:23–24). -/
structure DirRow where
  nameTag : Option String
  codeTag : Option String

/-- The accumulating loop of `scrape_symbols` (app.py:22–36): skip rows missing
either tag, append name and symbol together, stop once 100 names collected. -/
def scrapeGo : List DirRow → List String → List String → List String × List String
  | [], syms, nms => (syms.reverse, nms.reverse)
  | row :: rest, syms, nms =>
    match row.nameTag, row.codeTag with
    | some nm, some sym =>
        if (nm :: nms).length = 100 then ((sym :: syms).reverse, (nm :: nms).reverse)
        else scrapeGo rest (sym :: syms) (nm :: nms)
    | _, _ => scrapeGo rest syms nms

/-- Function `scrape_symbols()` (app.py:14–38): returns the parallel (symbols, names)
lists; note the scrape collects no prices. -/
def scrape_symbols (rows : List DirRow) : List String × List String :=
  scrapeGo rows [] []

/-- The Full Refresh handler (app.py:91–95): rescrape the directory, rebuild
the whole snapshot via `analyze`. -/
def fullRefresh (rows : List DirRow) (fetch : String → Option (List Bar))
    (today : Nat) (_s : AppState) : AppState :=
  let p := scrape_symbols rows
  { symbols := p.1, names := p.2, df := analyze fetch today p.1 p.2 }

/-- Outcome of the Quick Refresh handler: the price-update branch ran, or the
`"Please run a Full Refresh first!"` warning was shown. -/
inductive QuickResult
  | updated
  | notInitialized
deriving DecidableEq

/-- Python `dict` lookup in `price_map` (unique keys, so first match). -/
def lookupPrice (sym : String) : List (String × Option ℚ) → Option (Option ℚ)
  | [] => none
  | (k, v) :: rest => if k = sym then some v else lookupPrice sym rest

/-- Evaluation of `df["Ticker"].map(price_map)` at one ticker (app.py:118): pandas
`Series.map` with a dict sends keys absent from the dict to `NaN`, and a key
present with value `None` to `NaN` as well. -/
def mapPrice (pm : List (String × Option ℚ)) (sym : String) : Option ℚ :=
  match lookupPrice sym pm with
  | some v => v
  | none => none

/-- The Quick Refresh handler (app.py:98–121) given the already-built
`price_map`: if `st.session_state.symbols` is non-empty, overwrite the whole
`Current Price` column via `map`; otherwise warn and change nothing. -/
def quickRefresh (pm : List (String × Option ℚ)) (s : AppState) :
    QuickResult × AppState :=
  if s.symbols = [] then
    (QuickResult.notInitialized, s)
  else
    (QuickResult.updated,
      { s with df := s.df.map (fun r => { r with currentPrice := mapPrice pm r.symbol }) })

/-- One output row of the New-Extreme Check: `[ticker, name, today's extreme,
stored 20D extreme]` (app.py:169–172, 174–177). -/
structure NewRow where
  symbol : String
  name : String
  today : ℚ
  stored : ℚ
deriving DecidableEq

/-- Lookup `df.loc[df["Ticker"] == ticker, ...].values[0]`: the first snapshot row for
a ticker; `none` models the `IndexError` (caught, symbol skipped) when the
ticker is absent from the snapshot. -/
def findRecord (sym : String) : List TickerRecord → Option TickerRecord
  | [] => none
  | r :: rest => if r.symbol = sym then some r else findRecord sym rest

/-- One iteration of the New-Extreme loop body (app.py:149–179): the optional
new-high row and optional new-low row this ticker contributes.  A failed or
empty download, a ticker missing from the snapshot, or `names[idx]` out of
range all make the iteration contribute nothing (skip / caught exception). -/
def checkSym (fetch2 : String → Option (List Bar)) (df : List TickerRecord)
    (names : List String) (idx : Nat) (ticker : String) :
    Option NewRow × Option NewRow :=
  match fetch2 (normalizeSymbol ticker) with
  | none => (none, none)
  | some data =>
    match data.getLast? with
    | none => (none, none)
    | some lastBar =>
      match findRecord ticker df, names[idx]? with
      | some rec, some nm =>
          ((if rec.high20 < lastBar.high
              then some ⟨ticker, nm, lastBar.high, rec.high20⟩ else none),
           (if lastBar.low < rec.low20
              then some ⟨ticker, nm, lastBar.low, rec.low20⟩ else none))
      | _, _ => (none, none)

/-- The `for idx, ticker in enumerate(st.session_state.symbols)` loop of the
New-Extreme Check, appending to `new_high_rows` and `new_low_rows` in order. -/
def checkLoop (fetch2 : String → Option (List Bar)) (df : List TickerRecord)
    (names : List String) : Nat → List String → List NewRow × List NewRow
  | _, [] => ([], [])
  | i, t :: ts =>
      let c := checkSym fetch2 df names i t
      let rest := checkLoop fetch2 df names (i + 1) ts
      (c.1.toList ++ rest.1, c.2.toList ++ rest.2)

/-- The New-Extreme Check handler (app.py:145–195): read-only on the state; it
returns the `new_high_rows` and `new_low_rows` lists it would display, and the
(unchanged) session state it leaves behind. -/
def newExtremeCheck (fetch2 : String → Option (List Bar)) (s : AppState) :
    List NewRow × List NewRow × AppState :=
  if s.symbols = [] then ([], [], s)
  else
    let p := checkLoop fetch2 s.df s.names 0 s.symbols
    (p.1, p.2, s)

/-- Row predicate of `df["Current Price"] > df["20D High"]` (app.py:126): a
pandas comparison against `NaN` is `False`, so rows with a null price are
excluded. -/
def isAboveHigh (r : TickerRecord) : Bool :=
  match r.currentPrice with
  | some p => decide (r.high20 < p)
  | none => false

/-- Row predicate of `df["Current Price"] < df["20D Low"]` (app.py:129). -/
def isBelowLow (r : TickerRecord) : Bool :=
  match r.currentPrice with
  | some p => decide (p < r.low20)
  | none => false

/-- The `above_high_df` filter (app.py:125–127): breakout rows above the 20D high. -/
def aboveHigh (df : List TickerRecord) : List TickerRecord :=
  df.filter isAboveHigh

/-- The `below_low_df` filter (app.py:128–130): breakout rows below the 20D low. -/
def belowLow (df : List TickerRecord) : List TickerRecord :=
  df.filter isBelowLow

/-! ### Concrete sample data

Closed inputs used to exercise the development on explicit values. -/

/-- A sample bar dated 1. -/
def bar1 : Bar := ⟨1, 10, 4, 5⟩

/-- A sample bar dated 2. -/
def bar2 : Bar := ⟨2, 8, 3, 7⟩

/-- A provider returning the two-bar series for every requested symbol. -/
def sampleFetch : String → Option (List Bar) := fun _ => some [bar1, bar2]

/-- The record `analyze sampleFetch 9 ["AAPL"] ["Apple"]` produces: no bar is
dated 9, so the extrema span both bars and the price is the last close. -/
def sampleRecord : TickerRecord := ⟨"AAPL", "Apple", some 7, 10, 3⟩

/-- The record `analyze sampleFetch 2 ["AAPL"] ["Apple"]` produces: `bar2` is
dated "today" (2) and is dropped, leaving `bar1` alone. -/
def sampleRecordT : TickerRecord := ⟨"AAPL", "Apple", some 5, 10, 4⟩

/-- A one-row directory listing for AAPL. -/
def sampleRows : List DirRow := [⟨some "Apple", some "AAPL"⟩]

/-- The session state at process start (app.py:81–84). -/
def emptyState : AppState := ⟨[], [], []⟩

/-- A session state holding the AAPL snapshot. -/
def sampleState : AppState := ⟨["AAPL"], ["Apple"], [sampleRecord]⟩

/-- A quick-refresh price map that does not mention AAPL. -/
def samplePm : List (String × Option ℚ) := [("MSFT", some 100)]

/-- A snapshot whose single record has stored extrema 10/8. -/
def wideState : AppState := ⟨["A"], ["AName"], [⟨"A", "AName", some 9, 10, 8⟩]⟩

/-- A provider reporting a wide-range day: high 11 (above the stored high 10)
and low 7 (below the stored low 8) at once. -/
def wideFetch : String → Option (List Bar) := fun _ => some [⟨3, 11, 7, 9⟩]

/-! ### Helper lemmas -/

/-- Folding `max` over highs never goes below the accumulator. -/
theorem le_foldl_maxHigh (l : List Bar) (a : ℚ) :
    a ≤ l.foldl (fun acc c => max acc c.high) a := by
  induction l generalizing a with
  | nil => exact le_refl a
  | cons b bs ih => exact le_trans (le_max_left a b.high) (ih (max a b.high))

/-- Folding `min` over lows never goes above the accumulator. -/
theorem foldl_minLow_le (l : List Bar) (a : ℚ) :
    l.foldl (fun acc c => min acc c.low) a ≤ a := by
  induction l generalizing a with
  | nil => exact le_refl a
  | cons b bs ih => exact le_trans (ih (min a b.low)) (min_le_left a b.low)

/-- On a non-empty series whose bars each satisfy `low ≤ high`, the column
minimum is at most the column maximum. -/
theorem minLow_le_maxHigh (l : List Bar) (h : l ≠ [])
    (hb : ∀ b ∈ l, b.low ≤ b.high) : minLow l ≤ maxHigh l := by
  cases l with
  | nil => exact absurd rfl h
  | cons b bs =>
      have h1 : minLow (b :: bs) ≤ b.low := foldl_minLow_le bs b.low
      have h2 : b.high ≤ maxHigh (b :: bs) := le_foldl_maxHigh bs b.high
      exact le_trans h1 (le_trans (hb b (List.mem_cons_self b bs)) h2)

/-- Trimming only removes bars: membership is preserved into the original. -/
theorem mem_of_mem_trimToday {today : Nat} {bars : List Bar} {b : Bar}
    (h : b ∈ trimToday today bars) : b ∈ bars := by
  unfold trimToday at h
  cases hl : bars.getLast? with
  | none => simpa [hl] using h
  | some c =>
      simp only [hl] at h
      by_cases hd : c.date = today
      · rw [if_pos hd] at h
        exact (List.dropLast_sublist bars).mem h
      · rwa [if_neg hd] at h

/-- When the series ends on the caller's current date, trimming is exactly
dropping the last bar. -/
theorem trimToday_eq_dropLast {today : Nat} {bars : List Bar} {b : Bar}
    (hl : bars.getLast? = some b) (hd : b.date = today) :
    trimToday today bars = bars.dropLast := by
  unfold trimToday
  simp [hl, hd]

/-- Forward characterization of a successful `analyze` loop iteration. -/
theorem analyzeSym_eq_some (fetch : String → Option (List Bar)) (today : Nat)
    (names : List String) (i : Nat) (t : String) (r : TickerRecord)
    (h : analyzeSym fetch today names i t = some r) :
    ∃ bars lastBar nm,
      fetch (normalizeSymbol t) = some bars ∧ bars ≠ [] ∧
      (trimToday today bars).getLast? = some lastBar ∧
      names[i]? = some nm ∧
      r = ⟨t, nm, some lastBar.close,
           maxHigh (trimToday today bars), minLow (trimToday today bars)⟩ := by
  unfold analyzeSym at h
  cases hf : fetch (normalizeSymbol t) with
  | none => simp [hf] at h
  | some bars =>
      simp only [hf] at h
      by_cases hbe : bars = []
      · subst hbe; simp at h
      · rw [if_neg (fun hh => hbe (List.isEmpty_iff.mp hh))] at h
        cases hl : (trimToday today bars).getLast? with
        | none => simp [hl] at h
        | some lastBar =>
            cases hn : names[i]? with
            | none => simp [hl, hn] at h
            | some nm =>
                simp only [hl, hn] at h
                injection h with h
                exact ⟨bars, lastBar, nm, rfl, hbe, hl, rfl, h.symm⟩

/-- Membership in the `analyze` loop output, indexed from `i`. -/
theorem mem_analyzeLoop (fetch : String → Option (List Bar)) (today : Nat)
    (names : List String) (r : TickerRecord) :
    ∀ (ts : List String) (i : Nat),
      r ∈ analyzeLoop fetch today names i ts ↔
        ∃ j t, ts[j]? = some t ∧ analyzeSym fetch today names (i + j) t = some r := by
  intro ts
  induction ts with
  | nil => intro i; simp [analyzeLoop]
  | cons t ts ih =>
      intro i
      simp only [analyzeLoop, List.mem_append, Option.mem_toList, Option.mem_def]
      rw [ih (i + 1)]
      constructor
      · rintro (h | ⟨j, u, hu, ha⟩)
        · exact ⟨0, t, by simp, by simpa using h⟩
        · refine ⟨j + 1, u, by simpa using hu, ?_⟩
          rw [show i + (j + 1) = i + 1 + j by omega]
          exact ha
      · rintro ⟨j, u, hu, ha⟩
        cases j with
        | zero =>
            left
            simp only [List.getElem?_cons_zero, Option.some_inj] at hu
            subst hu
            simpa using ha
        | succ j =>
            right
            refine ⟨j, u, by simpa using hu, ?_⟩
            rw [show i + 1 + j = i + (j + 1) by omega]
            exact ha

/-- Membership in the snapshot produced by `analyze`. -/
theorem mem_analyze (fetch : String → Option (List Bar)) (today : Nat)
    (symbols names : List String) (r : TickerRecord) :
    r ∈ analyze fetch today symbols names ↔
      ∃ i t, symbols[i]? = some t ∧ analyzeSym fetch today names i t = some r := by
  unfold analyze
  rw [mem_analyzeLoop fetch today names r symbols 0]
  simp

/-- Forward/backward characterization of the new-high row a New-Extreme loop
iteration contributes. -/
theorem checkSym_fst_eq_some_iff (f : String → Option (List Bar))
    (df : List TickerRecord) (names : List String) (i : Nat) (t : String)
    (r : NewRow) :
    (checkSym f df names i t).1 = some r ↔
      ∃ bars lastBar rec nm,
        f (normalizeSymbol t) = some bars ∧ bars.getLast? = some lastBar ∧
        findRecord t df = some rec ∧ names[i]? = some nm ∧
        rec.high20 < lastBar.high ∧ r = ⟨t, nm, lastBar.high, rec.high20⟩ := by
  constructor
  · intro h
    unfold checkSym at h
    cases hf : f (normalizeSymbol t) with
    | none => simp [hf] at h
    | some bars =>
        simp only [hf] at h
        cases hl : bars.getLast? with
        | none => simp [hl] at h
        | some lastBar =>
            simp only [hl] at h
            cases hrec : findRecord t df with
            | none => simp [hrec] at h
            | some rec =>
                cases hn : names[i]? with
                | none => simp [hrec, hn] at h
                | some nm =>
                    simp only [hrec, hn] at h
                    by_cases hc : rec.high20 < lastBar.high
                    · rw [if_pos hc] at h
                      injection h with h
                      exact ⟨bars, lastBar, rec, nm, rfl, hl, rfl, rfl, hc, h.symm⟩
                    · rw [if_neg hc] at h
                      exact absurd h (by simp)
  · rintro ⟨bars, lastBar, rec, nm, hf, hl, hrec, hn, hc, hr⟩
    subst hr
    simp [checkSym, hf, hl, hrec, hn, hc]

/-- Forward/backward characterization of the new-low row a New-Extreme loop
iteration contributes. -/
theorem checkSym_snd_eq_some_iff (f : String → Option (List Bar))
    (df : List TickerRecord) (names : List String) (i : Nat) (t : String)
    (r : NewRow) :
    (checkSym f df names i t).2 = some r ↔
      ∃ bars lastBar rec nm,
        f (normalizeSymbol t) = some bars ∧ bars.getLast? = some lastBar ∧
        findRecord t df = some rec ∧ names[i]? = some nm ∧
        lastBar.low < rec.low20 ∧ r = ⟨t, nm, lastBar.low, rec.low20⟩ := by
  constructor
  · intro h
    unfold checkSym at h
    cases hf : f (normalizeSymbol t) with
    | none => simp [hf] at h
    | some bars =>
        simp only [hf] at h
        cases hl : bars.getLast? with
        | none => simp [hl] at h
        | some lastBar =>
            simp only [hl] at h
            cases hrec : findRecord t df with
            | none => simp [hrec] at h
            | some rec =>
                cases hn : names[i]? with
                | none => simp [hrec, hn] at h
                | some nm =>
                    simp only [hrec, hn] at h
                    by_cases hc : lastBar.low < rec.low20
                    · rw [if_pos hc] at h
                      injection h with h
                      exact ⟨bars, lastBar, rec, nm, rfl, hl, rfl, rfl, hc, h.symm⟩
                    · rw [if_neg hc] at h
                      exact absurd h (by simp)
  · rintro ⟨bars, lastBar, rec, nm, hf, hl, hrec, hn, hc, hr⟩
    subst hr
    simp [checkSym, hf, hl, hrec, hn, hc]

/-- Membership in the accumulated `new_high_rows`, indexed from `i`. -/
theorem mem_checkLoop_fst (f : String → Option (List Bar))
    (df : List TickerRecord) (names : List String) (r : NewRow) :
    ∀ (ts : List String) (i : Nat),
      r ∈ (checkLoop f df names i ts).1 ↔
        ∃ j t, ts[j]? = some t ∧ (checkSym f df names (i + j) t).1 = some r := by
  intro ts
  induction ts with
  | nil => intro i; simp [checkLoop]
  | cons t ts ih =>
      intro i
      simp only [checkLoop, List.mem_append, Option.mem_toList, Option.mem_def]
      rw [ih (i + 1)]
      constructor
      · rintro (h | ⟨j, u, hu, ha⟩)
        · exact ⟨0, t, by simp, by simpa using h⟩
        · refine ⟨j + 1, u, by simpa using hu, ?_⟩
          rw [show i + (j + 1) = i + 1 + j by omega]
          exact ha
      · rintro ⟨j, u, hu, ha⟩
        cases j with
        | zero =>
            left
            simp only [List.getElem?_cons_zero, Option.some_inj] at hu
            subst hu
            simpa using ha
        | succ j =>
            right
            refine ⟨j, u, by simpa using hu, ?_⟩
            rw [show i + 1 + j = i + (j + 1) by omega]
            exact ha

/-- Membership in the accumulated `new_low_rows`, indexed from `i`. -/
theorem mem_checkLoop_snd (f : String → Option (List Bar))
    (df : List TickerRecord) (names : List String) (r : NewRow) :
    ∀ (ts : List String) (i : Nat),
      r ∈ (checkLoop f df names i ts).2 ↔
        ∃ j t, ts[j]? = some t ∧ (checkSym f df names (i + j) t).2 = some r := by
  intro ts
  induction ts with
  | nil => intro i; simp [checkLoop]
  | cons t ts ih =>
      intro i
      simp only [checkLoop, List.mem_append, Option.mem_toList, Option.mem_def]
      rw [ih (i + 1)]
      constructor
      · rintro (h | ⟨j, u, hu, ha⟩)
        · exact ⟨0, t, by simp, by simpa using h⟩
        · refine ⟨j + 1, u, by simpa using hu, ?_⟩
          rw [show i + (j + 1) = i + 1 + j by omega]
          exact ha
      · rintro ⟨j, u, hu, ha⟩
        cases j with
        | zero =>
            left
            simp only [List.getElem?_cons_zero, Option.some_inj] at hu
            subst hu
            simpa using ha
        | succ j =>
            right
            refine ⟨j, u, by simpa using hu, ?_⟩
            rw [show i + 1 + j = i + (j + 1) by omega]
            exact ha

/-- Membership in the displayed `new_high_rows` of a full New-Extreme Check. -/
theorem mem_newExtremeCheck_fst (f : String → Option (List Bar)) (s : AppState)
    (r : NewRow) :
    r ∈ (newExtremeCheck f s).1 ↔
      ∃ i t, s.symbols[i]? = some t ∧ (checkSym f s.df s.names i t).1 = some r := by
  unfold newExtremeCheck
  by_cases hs : s.symbols = []
  · simp [hs]
  · rw [if_neg hs]
    rw [show ((let p := checkLoop f s.df s.names 0 s.symbols; (p.1, p.2, s)) :
        List NewRow × List NewRow × AppState).1 = (checkLoop f s.df s.names 0 s.symbols).1 from rfl]
    rw [mem_checkLoop_fst f s.df s.names r s.symbols 0]
    simp

/-- Membership in the displayed `new_low_rows` of a full New-Extreme Check. -/
theorem mem_newExtremeCheck_snd (f : String → Option (List Bar)) (s : AppState)
    (r : NewRow) :
    r ∈ (newExtremeCheck f s).2.1 ↔
      ∃ i t, s.symbols[i]? = some t ∧ (checkSym f s.df s.names i t).2 = some r := by
  unfold newExtremeCheck
  by_cases hs : s.symbols = []
  · simp [hs]
  · rw [if_neg hs]
    rw [show ((let p := checkLoop f s.df s.names 0 s.symbols; (p.1, p.2, s)) :
        List NewRow × List NewRow × AppState).2.1 = (checkLoop f s.df s.names 0 s.symbols).2 from rfl]
    rw [mem_checkLoop_snd f s.df s.names r s.symbols 0]
    simp

/-! ### Claim theorems -/

/-- C1 counterexample: the claim "every record whose symbol is absent from the
mapping keeps its prior currentPrice unchanged" is false.  `sampleState` holds
one record, symbol `AAPL`, prior price `7`; the mapping `samplePm` does not
mention `AAPL`; after Quick Refresh the record's price is null, not `7`. -/
theorem quickRefresh_absent_symbol_nulled_cex :
    ("AAPL" ∉ samplePm.map Prod.fst) ∧
    sampleState.df.map TickerRecord.currentPrice = [some 7] ∧
    (quickRefresh samplePm sampleState).2.df.map TickerRecord.currentPrice = [none] ∧
    (quickRefresh samplePm sampleState).2.df ≠ sampleState.df := by
  refine ⟨by decide, by decide, by decide, by decide⟩

/-- C1 (amended): on the update path (non-empty symbol list), Quick Price
Refresh rewrites every record's `currentPrice` from the mapping: a record whose
symbol is present receives the mapped value, and a record whose symbol is
absent has `currentPrice` set to null — the prior price is not kept.  Other
than `currentPrice`, the record is unchanged. -/
theorem quickRefresh_price_from_mapping (pm : List (String × Option ℚ))
    (s : AppState) (i : Nat) (r : TickerRecord)
    (hs : s.symbols ≠ []) (hr : s.df[i]? = some r) :
    ∃ r', (quickRefresh pm s).2.df[i]? = some r' ∧
      r'.symbol = r.symbol ∧ r'.name = r.name ∧
      r'.high20 = r.high20 ∧ r'.low20 = r.low20 ∧
      (∀ v, lookupPrice r.symbol pm = some v → r'.currentPrice = v) ∧
      (lookupPrice r.symbol pm = none → r'.currentPrice = none) := by
  refine ⟨{ r with currentPrice := mapPrice pm r.symbol }, ?_, rfl, rfl, rfl, rfl, ?_, ?_⟩
  · unfold quickRefresh
    rw [if_neg hs]
    show (s.df.map _)[i]? = _
    rw [List.getElem?_map, hr]
    rfl
  · intro v hv
    show mapPrice pm r.symbol = v
    unfold mapPrice
    rw [hv]
  · intro hv
    show mapPrice pm r.symbol = none
    unfold mapPrice
    rw [hv]

/-- Closed instance of the C1 amended theorem at `samplePm`/`sampleState`. -/
theorem quickRefresh_price_from_mapping_witness :
    (sampleState.symbols ≠ [] ∧ sampleState.df[0]? = some sampleRecord) ∧
    (∃ r', (quickRefresh samplePm sampleState).2.df[0]? = some r' ∧
      r'.symbol = sampleRecord.symbol ∧ r'.name = sampleRecord.name ∧
      r'.high20 = sampleRecord.high20 ∧ r'.low20 = sampleRecord.low20 ∧
      (∀ v, lookupPrice sampleRecord.symbol samplePm = some v → r'.currentPrice = v) ∧
      (lookupPrice sampleRecord.symbol samplePm = none → r'.currentPrice = none)) :=
  ⟨⟨by decide, by decide⟩,
   quickRefresh_price_from_mapping samplePm sampleState 0 sampleRecord
     (by decide) (by decide)⟩

/-- C2 counterexample: the two result lists of New-Extreme Check are not
disjoint.  `wideState` stores extrema 10/8 for symbol `A`; `wideFetch` reports
a bar with high 11 and low 7, so `A` lands in both `new_high_rows` and
`new_low_rows`. -/
theorem newExtremeCheck_not_disjoint_cex :
    "A" ∈ (newExtremeCheck wideFetch wideState).1.map NewRow.symbol ∧
    "A" ∈ (newExtremeCheck wideFetch wideState).2.1.map NewRow.symbol := by
  refine ⟨by decide, by decide⟩

/-- C2 (amended): membership in the two result lists of New-Extreme Check is
exactly as specified — a row is in `NewHighs` iff its symbol's fetched last bar
has `todayHigh > storedHigh20`, and in `NewLows` iff `todayLow < storedLow20`,
the stored values coming from the snapshot of the last Full Refresh — but the
two lists need not be disjoint: a symbol satisfying both comparisons at once
appears in both. -/
theorem newExtremeCheck_membership (f : String → Option (List Bar))
    (s : AppState) (r : NewRow) :
    (r ∈ (newExtremeCheck f s).1 ↔
      ∃ (i : Nat) (t : String) (bars : List Bar) (lastBar : Bar)
        (rec : TickerRecord) (nm : String),
        s.symbols[i]? = some t ∧ f (normalizeSymbol t) = some bars ∧
        bars.getLast? = some lastBar ∧ findRecord t s.df = some rec ∧
        s.names[i]? = some nm ∧ rec.high20 < lastBar.high ∧
        r = ⟨t, nm, lastBar.high, rec.high20⟩) ∧
    (r ∈ (newExtremeCheck f s).2.1 ↔
      ∃ (i : Nat) (t : String) (bars : List Bar) (lastBar : Bar)
        (rec : TickerRecord) (nm : String),
        s.symbols[i]? = some t ∧ f (normalizeSymbol t) = some bars ∧
        bars.getLast? = some lastBar ∧ findRecord t s.df = some rec ∧
        s.names[i]? = some nm ∧ lastBar.low < rec.low20 ∧
        r = ⟨t, nm, lastBar.low, rec.low20⟩) := by
  constructor
  · rw [mem_newExtremeCheck_fst f s r]
    constructor
    · rintro ⟨i, t, hi, hc⟩
      rcases (checkSym_fst_eq_some_iff f s.df s.names i t r).mp hc with
        ⟨bars, lastBar, rec, nm, h1, h2, h3, h4, h5, h6⟩
      exact ⟨i, t, bars, lastBar, rec, nm, hi, h1, h2, h3, h4, h5, h6⟩
    · rintro ⟨i, t, bars, lastBar, rec, nm, hi, h1, h2, h3, h4, h5, h6⟩
      exact ⟨i, t, hi, (checkSym_fst_eq_some_iff f s.df s.names i t r).mpr
        ⟨bars, lastBar, rec, nm, h1, h2, h3, h4, h5, h6⟩⟩
  · rw [mem_newExtremeCheck_snd f s r]
    constructor
    · rintro ⟨i, t, hi, hc⟩
      rcases (checkSym_snd_eq_some_iff f s.df s.names i t r).mp hc with
        ⟨bars, lastBar, rec, nm, h1, h2, h3, h4, h5, h6⟩
      exact ⟨i, t, bars, lastBar, rec, nm, hi, h1, h2, h3, h4, h5, h6⟩
    · rintro ⟨i, t, bars, lastBar, rec, nm, hi, h1, h2, h3, h4, h5, h6⟩
      exact ⟨i, t, hi, (checkSym_snd_eq_some_iff f s.df s.names i t r).mpr
        ⟨bars, lastBar, rec, nm, h1, h2, h3, h4, h5, h6⟩⟩

/-- C3: on the uninitialized session state — empty snapshot, produced by no
prior Full Refresh, hence an empty symbol list too — Quick Price Refresh
reports that a Full Refresh is required and performs no mutation at all: the
returned state is exactly the input state. -/
theorem quickRefresh_uninitialized (pm : List (String × Option ℚ)) (s : AppState)
    (_hdf : s.df = []) (hsy : s.symbols = []) :
    quickRefresh pm s = (QuickResult.notInitialized, s) := by
  unfold quickRefresh
  rw [if_pos hsy]

/-- Closed instance of C3 at the process-start state. -/
theorem quickRefresh_uninitialized_witness :
    (emptyState.df = [] ∧ emptyState.symbols = []) ∧
    quickRefresh [] emptyState = (QuickResult.notInitialized, emptyState) :=
  ⟨⟨rfl, rfl⟩, quickRefresh_uninitialized [] emptyState rfl rfl⟩

/-- C4: Full Refresh is total (a Lean function — it never aborts), every
produced record owes its symbol and name to the same directory index, its
symbol is one of the directory's symbols, and its market data came from a
successful, non-empty fetch — so any symbol whose fetch fails (`none`) or
yields an empty series is omitted from the snapshot. -/
theorem analyze_alignment_and_omission (fetch : String → Option (List Bar))
    (today : Nat) (symbols names : List String) (r : TickerRecord)
    (hr : r ∈ analyze fetch today symbols names) :
    (∃ i : Nat, symbols[i]? = some r.symbol ∧ names[i]? = some r.name) ∧
    r.symbol ∈ symbols ∧
    ∃ bars, fetch (normalizeSymbol r.symbol) = some bars ∧ bars ≠ [] := by
  rcases (mem_analyze fetch today symbols names r).mp hr with ⟨i, t, hi, hsym⟩
  rcases analyzeSym_eq_some fetch today names i t r hsym with
    ⟨bars, lastBar, nm, hf, hbe, hl, hn, hre⟩
  subst hre
  exact ⟨⟨i, hi, hn⟩, List.getElem?_mem hi, ⟨bars, hf, hbe⟩⟩

/-- Closed instance of C4: AAPL at directory index 0, with a successful
two-bar fetch, appears aligned in the snapshot. -/
theorem analyze_alignment_and_omission_witness :
    (sampleRecord ∈ analyze sampleFetch 9 ["AAPL"] ["Apple"]) ∧
    ((∃ i : Nat, ["AAPL"][i]? = some sampleRecord.symbol ∧
           ["Apple"][i]? = some sampleRecord.name) ∧
     sampleRecord.symbol ∈ ["AAPL"] ∧
     ∃ bars, sampleFetch (normalizeSymbol sampleRecord.symbol) = some bars ∧
       bars ≠ []) :=
  ⟨by decide,
   analyze_alignment_and_omission sampleFetch 9 ["AAPL"] ["Apple"] sampleRecord
     (by decide)⟩

/-- C5: every record Full Refresh derives from a (necessarily non-empty,
otherwise the symbol is skipped) bar series has `low20 ≤ high20`, provided
each fetched bar satisfies `low ≤ high`. -/
theorem analyze_high20_ge_low20 (fetch : String → Option (List Bar))
    (today : Nat) (symbols names : List String) (r : TickerRecord)
    (hr : r ∈ analyze fetch today symbols names)
    (hwf : ∀ bars, fetch (normalizeSymbol r.symbol) = some bars →
      ∀ b ∈ bars, b.low ≤ b.high) :
    r.low20 ≤ r.high20 := by
  rcases (mem_analyze fetch today symbols names r).mp hr with ⟨i, t, hi, hsym⟩
  rcases analyzeSym_eq_some fetch today names i t r hsym with
    ⟨bars, lastBar, nm, hf, hbe, hl, hn, hre⟩
  subst hre
  have hw : trimToday today bars ≠ [] := by
    intro hnil
    rw [hnil] at hl
    simp at hl
  refine minLow_le_maxHigh (trimToday today bars) hw ?_
  intro b hb
  exact hwf bars hf b (mem_of_mem_trimToday hb)

/-- Closed instance of C5 at the two-bar AAPL fetch. -/
theorem analyze_high20_ge_low20_witness :
    (sampleRecord ∈ analyze sampleFetch 9 ["AAPL"] ["Apple"] ∧
     (∀ bars, sampleFetch (normalizeSymbol sampleRecord.symbol) = some bars →
       ∀ b ∈ bars, b.low ≤ b.high)) ∧
    sampleRecord.low20 ≤ sampleRecord.high20 :=
  ⟨⟨by decide, fun bars h => by
      simp only [sampleFetch, Option.some_inj] at h
      subst h
      decide⟩,
   analyze_high20_ge_low20 sampleFetch 9 ["AAPL"] ["Apple"] sampleRecord
     (by decide)
     (fun bars h => by
       simp only [sampleFetch, Option.some_inj] at h
       subst h
       decide)⟩

/-- C6: on a snapshot whose records all satisfy `low20 ≤ high20`, the breakout
partitions are disjoint — no record is in both `above_high_df` and
`below_low_df` — and both filters preserve the snapshot's row order (they are
sublists of it). -/
theorem breakout_disjoint_and_ordered (df : List TickerRecord)
    (hinv : ∀ r ∈ df, r.low20 ≤ r.high20) :
    (∀ r, r ∈ aboveHigh df → r ∈ belowLow df → False) ∧
    (aboveHigh df).Sublist df ∧ (belowLow df).Sublist df := by
  refine ⟨?_, List.filter_sublist df, List.filter_sublist df⟩
  intro r hra hrb
  rcases List.mem_filter.mp hra with ⟨hmem, ha⟩
  rcases List.mem_filter.mp hrb with ⟨-, hb⟩
  cases hp : r.currentPrice with
  | none => simp [isAboveHigh, hp] at ha
  | some p =>
      simp only [isAboveHigh, hp, decide_eq_true_eq] at ha
      simp only [isBelowLow, hp, decide_eq_true_eq] at hb
      have hle := hinv r hmem
      linarith

/-- Closed instance of C6 on a one-record snapshot. -/
theorem breakout_disjoint_and_ordered_witness :
    (∀ r ∈ sampleState.df, r.low20 ≤ r.high20) ∧
    ((∀ r, r ∈ aboveHigh sampleState.df → r ∈ belowLow sampleState.df → False) ∧
     (aboveHigh sampleState.df).Sublist sampleState.df ∧
     (belowLow sampleState.df).Sublist sampleState.df) :=
  ⟨by decide, breakout_disjoint_and_ordered sampleState.df (by decide)⟩

/-- C7: Quick Price Refresh never changes a record's `symbol`, `name`,
`high20` or `low20`, and never changes the number of records: position by
position, every field other than `currentPrice` survives unchanged (for every
snapshot and every mapping, on both branches of the handler). -/
theorem quickRefresh_touches_only_price (pm : List (String × Option ℚ))
    (s : AppState) :
    (quickRefresh pm s).2.df.length = s.df.length ∧
    ∀ i : Nat,
      (quickRefresh pm s).2.df[i]?.map TickerRecord.symbol =
        s.df[i]?.map TickerRecord.symbol ∧
      (quickRefresh pm s).2.df[i]?.map TickerRecord.name =
        s.df[i]?.map TickerRecord.name ∧
      (quickRefresh pm s).2.df[i]?.map TickerRecord.high20 =
        s.df[i]?.map TickerRecord.high20 ∧
      (quickRefresh pm s).2.df[i]?.map TickerRecord.low20 =
        s.df[i]?.map TickerRecord.low20 := by
  unfold quickRefresh
  by_cases hs : s.symbols = []
  · rw [if_pos hs]
    exact ⟨rfl, fun i => ⟨rfl, rfl, rfl, rfl⟩⟩
  · rw [if_neg hs]
    refine ⟨List.length_map s.df _, fun i => ?_⟩
    refine ⟨?_, ?_, ?_, ?_⟩ <;>
      · show ((s.df.map _)[i]?.map _ = _)
        rw [List.getElem?_map]
        cases s.df[i]? <;> rfl

/-- C8: the New-Extreme Check handler leaves the session state — snapshot,
symbols and names — completely unchanged, for every provider behaviour. -/
theorem newExtremeCheck_leaves_state (f : String → Option (List Bar))
    (s : AppState) : (newExtremeCheck f s).2.2 = s := by
  unfold newExtremeCheck
  by_cases hs : s.symbols = []
  · rw [if_pos hs]
  · rw [if_neg hs]

/-- C9: whenever the fetched series of a surviving symbol ends on the caller's
current date, its stored extrema are computed over the series with that last
bar dropped. -/
theorem analyze_drops_today_bar (fetch : String → Option (List Bar))
    (today : Nat) (symbols names : List String) (r : TickerRecord)
    (bars : List Bar) (b : Bar)
    (hr : r ∈ analyze fetch today symbols names)
    (hf : fetch (normalizeSymbol r.symbol) = some bars)
    (hl : bars.getLast? = some b) (hd : b.date = today) :
    r.high20 = maxHigh bars.dropLast ∧ r.low20 = minLow bars.dropLast := by
  rcases (mem_analyze fetch today symbols names r).mp hr with ⟨i, t, hi, hsym⟩
  rcases analyzeSym_eq_some fetch today names i t r hsym with
    ⟨bars', lastBar, nm, hf', hbe', hl', hn', hre⟩
  subst hre
  dsimp only at hf
  have hbb : bars' = bars := by
    have h2 := hf'.symm.trans hf
    injection h2
  subst hbb
  show maxHigh (trimToday today bars') = maxHigh bars'.dropLast ∧
    minLow (trimToday today bars') = minLow bars'.dropLast
  rw [trimToday_eq_dropLast hl hd]
  exact ⟨rfl, rfl⟩

/-- Closed instance of C9: with today = 2 the bar dated 2 is dropped and the
extrema come from the single remaining bar. -/
theorem analyze_drops_today_bar_witness :
    (sampleRecordT ∈ analyze sampleFetch 2 ["AAPL"] ["Apple"] ∧
     sampleFetch (normalizeSymbol sampleRecordT.symbol) = some [bar1, bar2] ∧
     [bar1, bar2].getLast? = some bar2 ∧ bar2.date = 2) ∧
    (sampleRecordT.high20 = maxHigh ([bar1, bar2].dropLast) ∧
     sampleRecordT.low20 = minLow ([bar1, bar2].dropLast)) :=
  ⟨⟨by decide, by decide, by decide, by decide⟩,
   analyze_drops_today_bar sampleFetch 2 ["AAPL"] ["Apple"] sampleRecordT
     [bar1, bar2] bar2 (by decide) (by decide) (by decide) (by decide)⟩

/-- C10: after a Full Refresh, every record's `currentPrice` is the last close
of the (today-trimmed) bar series fetched for that record's symbol.  The
directory input (`DirRow`) carries only the name and symbol tags the scrape
reads, so no directory-quoted price exists to be used. -/
theorem fullRefresh_price_is_last_close (rows : List DirRow)
    (fetch : String → Option (List Bar)) (today : Nat) (s : AppState)
    (r : TickerRecord) (hr : r ∈ (fullRefresh rows fetch today s).df) :
    ∃ bars lastBar,
      fetch (normalizeSymbol r.symbol) = some bars ∧
      (trimToday today bars).getLast? = some lastBar ∧
      r.currentPrice = some lastBar.close := by
  unfold fullRefresh at hr
  rcases (mem_analyze fetch today (scrape_symbols rows).1 (scrape_symbols rows).2 r).mp hr with
    ⟨i, t, hi, hsym⟩
  rcases analyzeSym_eq_some fetch today (scrape_symbols rows).2 i t r hsym with
    ⟨bars, lastBar, nm, hf, hbe, hl, hn, hre⟩
  subst hre
  exact ⟨bars, lastBar, hf, hl, rfl⟩

/-- Closed instance of C10: a full refresh over the one-row directory, with the
two-bar AAPL series, prices the record at the series' last close. -/
theorem fullRefresh_price_is_last_close_witness :
    (sampleRecord ∈ (fullRefresh sampleRows sampleFetch 9 emptyState).df) ∧
    (∃ bars lastBar,
      sampleFetch (normalizeSymbol sampleRecord.symbol) = some bars ∧
      (trimToday 9 bars).getLast? = some lastBar ∧
      sampleRecord.currentPrice = some lastBar.close) :=
  ⟨by decide,
   fullRefresh_price_is_last_close sampleRows sampleFetch 9 emptyState
     sampleRecord (by decide)⟩
